import Mathlib

/-!
Verification of the react-refresh AST transformer
(`src/tsc/transform-react-refresh.ts`, class `RefreshTransformer`).

The TypeScript AST is shallowly embedded: every `getText()` result (binding
patterns, call arguments) is abstracted as a `String`, comment ranges attached
to a statement (`ts.getLeadingCommentRanges(sf.text, node.pos)`) are carried as
a `List String` on the statement, and the freshly generated signature
identifiers (`f.createUniqueName '_s'`) are numbered `0, 1, ...` in creation
order, which is all the program observes of them (spec §5: spelling only needs
to be unique within the module).
-/

/-! ## Input tree -/

/-- Callee of a call expression (source lines 198-207): a plain identifier,
a property access (of which only `expression.name.text` is consulted), or
anything else (rejected). -/
inductive Callee where
  | ident (name : String)
  | propAccess (name : String)
  | otherCallee
deriving DecidableEq

/-- A call expression: callee plus the raw source texts of its arguments
(the transformer only ever reads `args[i].getText()`). -/
structure CallExpr where
  callee : Callee
  args : List String
deriving DecidableEq

/-- Initializer of a variable declarator inside a function body: the scanner
(lines 164-175) only distinguishes call-expression initializers. -/
inductive BodyInit where
  | call (c : CallExpr)
  | otherInit
deriving DecidableEq

/-- A declarator of a variable statement inside a function body.
`bindingText` is `decl.name.getText()` (the call's `ctx.parent.name`,
line 215). -/
structure BodyVarDecl where
  bindingText : String
  init : Option BodyInit
deriving DecidableEq

/-- A direct statement of a function body block. The analyzer (lines 163-185)
only distinguishes variable statements and expression statements whose
expression is a call; everything else is skipped. -/
inductive BodyStmt where
  | varStmt (decls : List BodyVarDecl)
  | exprCall (c : CallExpr)
  | other
deriving DecidableEq

/-- A function-like node (`TSFunctionLike`). `body = some stmts` means the body
exists and is a block with those direct statements; `none` covers both a
missing body and a non-block (concise arrow) body, the two cases the source
treats identically (`fnNode.body && ts.isBlock(fnNode.body)`, lines 162, 234). -/
structure FnLike where
  body : Option (List BodyStmt)
deriving DecidableEq

/-- A top-level function declaration with its leading comment texts. -/
structure FuncDecl where
  name : Option String
  fn : FnLike
  comments : List String
deriving DecidableEq

/-- Binding name of a top-level declarator: the scanner only acts when it is a
plain identifier (`ts.isIdentifier(name)`, lines 48, 130). -/
inductive BindName where
  | ident (name : String)
  | pattern (text : String)
deriving DecidableEq

/-- Initializer of a top-level declarator: function expression, arrow function,
or anything else (unclassified). -/
inductive TopInit where
  | fnExpr (fn : FnLike)
  | arrow (fn : FnLike)
  | otherInit
deriving DecidableEq

/-- A top-level variable declarator. -/
structure TopVarDecl where
  name : BindName
  init : Option TopInit
deriving DecidableEq

/-- A top-level variable statement with its leading comment texts. -/
structure VarStmtTop where
  decls : List TopVarDecl
  comments : List String
deriving DecidableEq

/-- An import declaration: optional default-import name plus the local names of
its import specifiers (lines 65-77; a namespace import contributes no
`ImportSpecifier` children and is covered by the empty list). -/
structure ImportDecl where
  defaultName : Option String
  namedImports : List String
deriving DecidableEq

/-- A top-level module statement. `other` is any statement the transformer
never inspects, tagged so distinct statements stay distinguishable. -/
inductive Stmt where
  | funcDecl (fd : FuncDecl)
  | varStmt (vs : VarStmtTop)
  | importDecl (im : ImportDecl)
  | other (tag : Nat)
deriving DecidableEq

/-! ## Name predicates (source lines 317-353) -/

/-- `isComponentishName` (lines 317-320): first character between `A` and `Z`.
JS `charAt(0)` on the empty string yields `''`, failing both comparisons. -/
def isComponentishName (name : String) : Bool :=
  match name.data with
  | c :: _ => decide ('A' ≤ c) && decide (c ≤ 'Z')
  | [] => false

/-- `isHookName` (lines 322-325): starts with `use` and the character at index
3 exists (JS `charAt` yields falsy `''` otherwise) and is an uppercase ASCII
letter. -/
def isHookName (name : String) : Bool :=
  match name.data with
  | 'u' :: 's' :: 'e' :: c :: _ => decide ('A' ≤ c) && decide (c ≤ 'Z')
  | _ => false

/-- `isBuiltinHook` (lines 327-353): the fixed switch over built-in hook names,
bare and `React.`-qualified. -/
def isBuiltinHook (hookName : String) : Bool :=
  hookName == ("useState") || hookName == ("React.useState") ||
  hookName == ("useReducer") || hookName == ("React.useReducer") ||
  hookName == ("useEffect") || hookName == ("React.useEffect") ||
  hookName == ("useLayoutEffect") || hookName == ("React.useLayoutEffect") ||
  hookName == ("useMemo") || hookName == ("React.useMemo") ||
  hookName == ("useCallback") || hookName == ("React.useCallback") ||
  hookName == ("useRef") || hookName == ("React.useRef") ||
  hookName == ("useContext") || hookName == ("React.useContext") ||
  hookName == ("useImperativeMethods") || hookName == ("React.useImperativeMethods") ||
  hookName == ("useDebugValue") || hookName == ("React.useDebugValue")

/-! ## Hook-call extraction (`_getHookCallSignature`, lines 198-231) -/

/-- One extracted hook call site: hook name and its key
(binding text plus argument fragment). -/
structure HookCall where
  name : String
  key : String
deriving DecidableEq

/-- The argument-sensitive fragment of a call-site key (lines 218-225):
`useState` with at least one argument appends `(args[0].getText())`,
`useReducer` with at least two appends `(args[1].getText())`. -/
def argKeyFragment (name : String) (args : List String) : String :=
  if name == ("useState") then
    match args with
    | a :: _ => ("(") ++ a ++ (")")
    | [] => ""
  else if name == ("useReducer") then
    match args with
    | _ :: b :: _ => ("(") ++ b ++ (")")
    | _ => ""
  else ""

/-- Shared tail of `_getHookCallSignature` after the callee name is resolved:
reject non-hook names, else key = parent binding text (`''` when the call's
parent is not a variable declaration, lines 212-216) plus the argument
fragment. -/
def hookCallOf (parentBinding : Option String) (name : String) (args : List String) :
    Option HookCall :=
  if !isHookName name then none
  else some { name := name, key := (parentBinding.getD "") ++ argKeyFragment name args }

/-- `_getHookCallSignature` (lines 198-231). `parentBinding` models
`ctx.parent`: `some t` when the call is the initializer of a variable
declarator whose binding pattern prints as `t`, `none` otherwise. -/
def _getHookCallSignature (parentBinding : Option String) (ctx : CallExpr) :
    Option HookCall :=
  match ctx.callee with
  | Callee.ident n => hookCallOf parentBinding n ctx.args
  | Callee.propAccess n => hookCallOf parentBinding n ctx.args
  | Callee.otherCallee => none

/-! ## Hook-calls signature of a function (`_getHookCallsSignature`, lines 160-196) -/

/-- Hook calls extracted from one direct body statement (lines 163-185): every
declarator whose initializer is a call is attempted with the declarator as
parent; a bare expression-statement call is attempted with no parent. -/
def stmtHookCalls (s : BodyStmt) : List HookCall :=
  match s with
  | BodyStmt.varStmt decls =>
      decls.filterMap (fun d =>
        match d.init with
        | some (BodyInit.call c) => _getHookCallSignature (some d.bindingText) c
        | _ => none)
  | BodyStmt.exprCall c => (_getHookCallSignature none c).toList
  | BodyStmt.other => []

/-- All hook calls of a body, in source order. -/
def bodyCalls (stmts : List BodyStmt) : List HookCall :=
  (stmts.map stmtHookCalls).flatten

/-- JS `Array.prototype.join(sep)`. -/
def joinSep (sep : String) : List String → String
  | [] => ""
  | [x] => x
  | x :: y :: xs => x ++ sep ++ joinSep sep (y :: xs)

/-- The printed form of one call site, `name + '{' + key + '}'` (line 191). -/
def renderCall (c : HookCall) : String :=
  c.name ++ ("\x7b") ++ c.key ++ ("\x7d")

/-- A function's computed signature: aggregate key and ordered custom hook
names. -/
structure HCSig where
  key : String
  customHooks : List String
deriving DecidableEq

/-- `_getHookCallsSignature` (lines 160-196). A missing/non-block body leaves
the call list empty, so both roads to `null` collapse into the `none` cases. -/
def getHookCallsSignature (fn : FnLike) : Option HCSig :=
  match fn.body with
  | none => none
  | some stmts =>
      let hookCalls := bodyCalls stmts
      if hookCalls.length == 0 then none
      else some
        { key := joinSep ("\n") (hookCalls.map renderCall),
          customHooks := (hookCalls.filter (fun c => !isBuiltinHook c.name)).map HookCall.name }

/-! ## Scan pass (first half of `transform`, lines 23-80) -/

/-- One entry of the `hookCalls` WeakMap, keyed by the position of the
function-like node: statement index, declarator index (0 for function
declarations), the fresh signature id minted for it, and the computed
signature. -/
structure SigEntry where
  stmtIdx : Nat
  declIdx : Nat
  id : Nat
  key : String
  customHooks : List String
deriving DecidableEq

/-- The scan state: `components` and `seenHooks` mirror the arrays/set of the
same names; `sigs` merges the `signatures` array and the `hookCalls` map
(entry `k` holds id `k`, matching creation order). -/
structure ScanState where
  components : List String
  seenHooks : List String
  sigs : List SigEntry
deriving DecidableEq

/-- `Set.add` on the hook-name set: only membership is observable. -/
def addHook (hs : List String) (n : String) : List String :=
  if hs.contains n then hs else hs ++ [n]

/-- Mint a fresh signature id and record the map entry (lines 40-42, 59-61). -/
def pushSig (st : ScanState) (i di : Nat) (sig : HCSig) : ScanState :=
  { st with sigs := st.sigs ++
      [{ stmtIdx := i, declIdx := di, id := st.sigs.length,
         key := sig.key, customHooks := sig.customHooks }] }

/-- Scan of a top-level function declaration (lines 31-43). -/
def scanFuncDecl (st : ScanState) (i : Nat) (fd : FuncDecl) : ScanState :=
  let st1 :=
    match fd.name with
    | some n =>
        let a := if isComponentishName n then
            { st with components := st.components ++ [n] } else st
        if isHookName n then { a with seenHooks := addHook a.seenHooks n } else a
    | none => st
  match getHookCallsSignature fd.fn with
  | some sig => pushSig st1 i 0 sig
  | none => st1

/-- Scan of one top-level declarator bound to a named function (lines 46-62). -/
def scanNamedFn (st : ScanState) (i di : Nat) (n : String) (fn : FnLike) : ScanState :=
  let sig? := getHookCallsSignature fn
  let st1 := if isComponentishName n then
      { st with components := st.components ++ [n] } else st
  let st2 := if isHookName n then { st1 with seenHooks := addHook st1.seenHooks n } else st1
  match sig? with
  | some sig => pushSig st2 i di sig
  | none => st2

/-- Scan of one top-level declarator (lines 45-63): only a plain identifier
bound to a function expression or arrow function is classified. -/
def scanVarDecl (i : Nat) (st : ScanState) (p : Nat × TopVarDecl) : ScanState :=
  match p.2.name, p.2.init with
  | BindName.ident n, some (TopInit.fnExpr fn) => scanNamedFn st i p.1 n fn
  | BindName.ident n, some (TopInit.arrow fn) => scanNamedFn st i p.1 n fn
  | _, _ => st

/-- Scan of an import declaration (lines 65-78). -/
def scanImport (st : ScanState) (im : ImportDecl) : ScanState :=
  let st1 :=
    match im.defaultName with
    | some n => if isHookName n then { st with seenHooks := addHook st.seenHooks n } else st
    | none => st
  im.namedImports.foldl
    (fun s n => if isHookName n then { s with seenHooks := addHook s.seenHooks n } else s) st1

/-- One step of the top-level scan (lines 30-80). -/
def scanStep (st : ScanState) (p : Nat × Stmt) : ScanState :=
  match p.2 with
  | Stmt.funcDecl fd => scanFuncDecl st p.1 fd
  | Stmt.varStmt vs => vs.decls.enum.foldl (scanVarDecl p.1) st
  | Stmt.importDecl im => scanImport st im
  | Stmt.other _ => st

/-- The full scan over the module's statements. -/
def scan (m : List Stmt) : ScanState :=
  m.enum.foldl scanStep { components := [], seenHooks := [], sigs := [] }

/-! ## Output tree and rewrite phase (lines 82-157, 233-314) -/

/-- An argument of the emitted signature-recording call (line 235-263):
the component reference, the key string literal, the optional forceReset
boolean literal, and the optional `function() { return [hook refs] }`
literal (abstracted by the ordered list of referenced hook names). -/
inductive SigArg where
  | ident (s : String)
  | str (s : String)
  | boolLit (b : Bool)
  | hooksFn (names : List String)
deriving DecidableEq

/-- A statement of a rewritten function body: the injected zero-argument
signature call, or an original body statement. -/
inductive OutBodyStmt where
  | sigEntry (sigId : Nat)
  | orig (b : BodyStmt)
deriving DecidableEq

/-- A declarator of a rebuilt top-level variable statement: passed through
unchanged, or rewritten with the signed function's new body (lines 126-146). -/
inductive OutVarDecl where
  | orig (d : TopVarDecl)
  | fnExprRw (name : String) (sigId : Nat) (body : List OutBodyStmt)
  | arrowRw (name : String) (sigId : Nat) (body : List OutBodyStmt)
deriving DecidableEq

/-- An output top-level statement. `orig` is an untouched original statement;
`sigDecls` is the prepended `const _s = $RefreshSig$(), ...` declaration
(line 95-107, one id per signature in creation order); `register` is an
appended `$RefreshReg$(name, "name")` call (lines 82-93, identifier and
string literal spell the same name); `sigRecord` is a
`_s(component, key, ...)` recording statement; `funcDeclRw`/`varStmtRw` are
the rewritten defining statements. -/
inductive OutStmt where
  | orig (s : Stmt)
  | sigDecls (ids : List Nat)
  | register (name : String)
  | sigRecord (sigId : Nat) (args : List SigArg)
  | funcDeclRw (name : Option String) (body : List OutBodyStmt)
  | varStmtRw (decls : List OutVarDecl) (comments : List String)
deriving DecidableEq

/-- Argument list of the recording call (lines 235-263): component reference
and key always; the forceReset literal and the getCustomHooks function only
when `forceReset || customHooks.length > 0`, the latter only when
`customHooks.length > 0`. -/
def sigRecordArgs (fnName key : String) (forceReset : Bool) (customHooks : List String) :
    List SigArg :=
  [SigArg.ident fnName, SigArg.str key] ++
    (if forceReset || customHooks.length > 0 then
      [SigArg.boolLit forceReset] ++
        (if customHooks.length > 0 then [SigArg.hooksFn customHooks] else [])
    else [])

/-- `_sign` (lines 233-314): when the body is a block, return the rewritten
body (the zero-argument signature call followed by the original statements,
identical for all three node kinds) and the recording statement; otherwise
return nothing (the source returns `undefined`, which every caller then
non-null-asserts). -/
def _sign (fn : FnLike) (fnName : String) (sigId : Nat) (key : String)
    (forceReset : Bool) (customHooks : List String) :
    Option (List OutBodyStmt × OutStmt) :=
  match fn.body with
  | some stmts =>
      some (OutBodyStmt.sigEntry sigId :: stmts.map OutBodyStmt.orig,
        OutStmt.sigRecord sigId (sigRecordArgs fnName key forceReset customHooks))
  | none => none

/-- The custom-hook filtering done at emission time
(`customHooks.filter(name => seenHooks.has(name))`, lines 116, 135). -/
def resolveHooks (seen customHooks : List String) : List String :=
  customHooks.filter (fun n => seen.contains n)

/-- The emitted forceReset value
(`forceResetComment || _customHooks.length !== customHooks.length`,
lines 118, 136). -/
def resolvedForceReset (frc : Bool) (seen customHooks : List String) : Bool :=
  frc || (resolveHooks seen customHooks).length != customHooks.length

/-- `hookCalls.has`/`get` keyed by node position: the WeakMap holds at most one
entry per function-like node, and nodes are identified by (statement index,
declarator index). -/
def findSig (sigs : List SigEntry) (i di : Nat) : Option SigEntry :=
  sigs.find? (fun e => e.stmtIdx == i && e.declIdx == di)

/-- The `@refresh reset` directive check (lines 117, 121): some leading
comment range's text contains the marker substring. -/
def includesFrom (pat : List Char) : List Char → Bool
  | [] => pat.isPrefixOf ([] : List Char)
  | c :: rest => pat.isPrefixOf (c :: rest) || includesFrom pat rest

/-- JS `String.prototype.includes`. -/
def strIncludes (s pat : String) : Bool :=
  includesFrom pat.data s.data

/-- True when some attached comment text contains `@refresh reset`. -/
def hasResetComment (comments : List String) : Bool :=
  comments.any (fun c => strIncludes c ("@refresh reset"))

/-- Leading comments consulted for a statement
(`ts.getLeadingCommentRanges(sf.text, node.pos)`). -/
def stmtComments : Stmt → List String
  | Stmt.funcDecl fd => fd.comments
  | Stmt.varStmt vs => vs.comments
  | _ => []

/-- Rewrite of one top-level declarator (lines 126-146): a signed
function-valued declarator is replaced and its recording statement collected;
every other declarator passes through. The `none` fallbacks on `_sign` model
the source's non-null assertion (its target is proved unreachable below). -/
def rewriteVarDecl (seen : List String) (sigs : List SigEntry) (i : Nat) (frc : Bool)
    (p : Nat × TopVarDecl) : OutVarDecl × List OutStmt :=
  match p.2.name, p.2.init with
  | BindName.ident nm, some (TopInit.fnExpr fn) =>
      (match findSig sigs i p.1 with
      | some e =>
          (match _sign fn nm e.id e.key (resolvedForceReset frc seen e.customHooks)
              (resolveHooks seen e.customHooks) with
          | some (body, rec) => (OutVarDecl.fnExprRw nm e.id body, [rec])
          | none => (OutVarDecl.orig p.2, []))
      | none => (OutVarDecl.orig p.2, []))
  | BindName.ident nm, some (TopInit.arrow fn) =>
      (match findSig sigs i p.1 with
      | some e =>
          (match _sign fn nm e.id e.key (resolvedForceReset frc seen e.customHooks)
              (resolveHooks seen e.customHooks) with
          | some (body, rec) => (OutVarDecl.arrowRw nm e.id body, [rec])
          | none => (OutVarDecl.orig p.2, []))
      | none => (OutVarDecl.orig p.2, []))
  | _, _ => (OutVarDecl.orig p.2, [])

/-- Rewrite of one original top-level statement (the mapping function of
lines 113-153). A signed function declaration becomes the rewritten
declaration followed by its recording statement (`node.name!.text` is modeled
by `getD ""`); a variable statement is rebuilt declarator by declarator with
the per-declarator recording statements appended after it in declarator
order; everything else passes through. -/
def rewriteStmt (seen : List String) (sigs : List SigEntry) (i : Nat) (s : Stmt) :
    List OutStmt :=
  match s with
  | Stmt.funcDecl fd =>
      (match findSig sigs i 0 with
      | some e =>
          let frc := hasResetComment fd.comments
          (match _sign fd.fn (fd.name.getD "") e.id e.key
              (resolvedForceReset frc seen e.customHooks)
              (resolveHooks seen e.customHooks) with
          | some (body, rec) => [OutStmt.funcDeclRw fd.name body, rec]
          | none => [OutStmt.orig s])
      | none => [OutStmt.orig s])
  | Stmt.varStmt vs =>
      let frc := hasResetComment vs.comments
      let results := vs.decls.enum.map (rewriteVarDecl seen sigs i frc)
      OutStmt.varStmtRw (results.map Prod.fst) vs.comments ::
        (results.map Prod.snd).flatten
  | _ => [OutStmt.orig s]

/-- The whole transform (lines 23-158). The source appends the registration
calls to `statements`, prepends the combined signature declaration, and then
runs the rewrite map over that whole list; the two synthesized statement kinds
pass through that map with unchanged content (the prepended variable statement
has no function-valued initializers and is rebuilt identical, the registration
expression statements hit the default branch), so the result is assembled
directly around the rewritten original statements. -/
def transform (m : List Stmt) : List OutStmt :=
  let sc := scan m
  let rewritten := (m.enum.map (fun p => rewriteStmt sc.seenHooks sc.sigs p.1 p.2)).flatten
  let regs := sc.components.map OutStmt.register
  (if sc.sigs.length > 0 then [OutStmt.sigDecls (sc.sigs.map SigEntry.id)] else []) ++
    rewritten ++ regs

/-! ## Concrete modules used as test vectors -/

/-- Body of `function Counter(){ const [n,setN]=useState(0); useMyHook(); return null }`. -/
def counterBody : List BodyStmt :=
  [BodyStmt.varStmt
      [{ bindingText := "[n,setN]",
         init := some (BodyInit.call { callee := Callee.ident ("useState"), args := ["0"] }) }],
   BodyStmt.exprCall { callee := Callee.ident ("useMyHook"), args := [] },
   BodyStmt.other]

/-- The two-statement module of the spec's end-to-end example:
`function Counter(){ ... }` followed by `function useMyHook(){ return 1 }`. -/
def counterModule : List Stmt :=
  [Stmt.funcDecl ⟨some ("Counter"), ⟨some counterBody⟩, []⟩,
   Stmt.funcDecl ⟨some ("useMyHook"), ⟨some [BodyStmt.other]⟩, []⟩]

/-- The signature-recording calls of an output, with their signature ids. -/
def recordsIn (l : List OutStmt) : List (Nat × List SigArg) :=
  l.filterMap (fun o =>
    match o with
    | OutStmt.sigRecord i a => some (i, a)
    | _ => none)

/-! ## Seed-argument call sites (used for C5) -/

/-- A direct `useState`/`useReducer` call site whose seed argument (first for
`useState`, second for `useReducer`) is the varying parameter `t`: either a
bare expression-statement call or a declarator initializer surrounded by
arbitrary sibling declarators. -/
inductive SeedSite where
  | stateBare (rest : List String)
  | stateBound (dp dq : List BodyVarDecl) (bind : String) (rest : List String)
  | reducerBare (a0 : String) (rest : List String)
  | reducerBound (dp dq : List BodyVarDecl) (bind : String) (a0 : String) (rest : List String)
deriving DecidableEq

/-- The hook name called at the site. -/
def SeedSite.hook : SeedSite → String
  | SeedSite.stateBare _ => ("useState")
  | SeedSite.stateBound _ _ _ _ => ("useState")
  | SeedSite.reducerBare _ _ => ("useReducer")
  | SeedSite.reducerBound _ _ _ _ _ => ("useReducer")

/-- The binding text the extraction will use as bindingKey (empty for the
bare call sites). -/
def SeedSite.bindText : SeedSite → String
  | SeedSite.stateBare _ => ""
  | SeedSite.stateBound _ _ b _ => b
  | SeedSite.reducerBare _ _ => ""
  | SeedSite.reducerBound _ _ b _ _ => b

/-- The body statement holding the call with seed argument text `t`. -/
def SeedSite.mkStmt : SeedSite → String → BodyStmt
  | SeedSite.stateBare rest, t =>
      BodyStmt.exprCall ⟨Callee.ident ("useState"), t :: rest⟩
  | SeedSite.stateBound dp dq b rest, t =>
      BodyStmt.varStmt
        (dp ++ [⟨b, some (BodyInit.call ⟨Callee.ident ("useState"), t :: rest⟩)⟩] ++ dq)
  | SeedSite.reducerBare a0 rest, t =>
      BodyStmt.exprCall ⟨Callee.ident ("useReducer"), a0 :: t :: rest⟩
  | SeedSite.reducerBound dp dq b a0 rest, t =>
      BodyStmt.varStmt
        (dp ++ [⟨b, some (BodyInit.call ⟨Callee.ident ("useReducer"), a0 :: t :: rest⟩)⟩] ++ dq)

/-- Hook calls extracted from the site's sibling declarators before the call. -/
def sitePre : SeedSite → List HookCall
  | SeedSite.stateBound dp _ _ _ => stmtHookCalls (BodyStmt.varStmt dp)
  | SeedSite.reducerBound dp _ _ _ _ => stmtHookCalls (BodyStmt.varStmt dp)
  | _ => []

/-- Hook calls extracted from the site's sibling declarators after the call. -/
def sitePost : SeedSite → List HookCall
  | SeedSite.stateBound _ dq _ _ => stmtHookCalls (BodyStmt.varStmt dq)
  | SeedSite.reducerBound _ dq _ _ _ => stmtHookCalls (BodyStmt.varStmt dq)
  | _ => []

/-- Absence of the join separator character in a string (C6). -/
def noNewline (s : String) : Prop := '\n' ∉ s.data

instance noNewlineDec (s : String) : Decidable (noNewline s) :=
  inferInstanceAs (Decidable ('\n' ∉ s.data))

/-! ## Derived views used in the frame/registration claims -/

/-- The component name contributed by one top-level declarator (lines 46-53):
a plain identifier bound to a function expression or arrow function whose
name is componentish. -/
def declComponent (d : TopVarDecl) : List String :=
  match d.name, d.init with
  | BindName.ident n, some (TopInit.fnExpr _) => if isComponentishName n then [n] else []
  | BindName.ident n, some (TopInit.arrow _) => if isComponentishName n then [n] else []
  | _, _ => []

/-- The component names contributed by one top-level statement
(lines 31-34, 46-54). -/
def stmtComponents : Stmt → List String
  | Stmt.funcDecl fd =>
      match fd.name with
      | some n => if isComponentishName n then [n] else []
      | none => []
  | Stmt.varStmt vs => (vs.decls.map declComponent).flatten
  | _ => []

/-- The function-like node a map entry points at: the function declaration's
own function at declarator index 0, or the var-statement declarator's
initializer function. -/
def sigTarget (m : List Stmt) (e : SigEntry) : Option FnLike :=
  match m[e.stmtIdx]? with
  | some (Stmt.funcDecl fd) => if e.declIdx == 0 then some fd.fn else none
  | some (Stmt.varStmt vs) =>
      match vs.decls[e.declIdx]? with
      | some d =>
          match d.name, d.init with
          | BindName.ident _, some (TopInit.fnExpr fn) => some fn
          | BindName.ident _, some (TopInit.arrow fn) => some fn
          | _, _ => none
      | none => none
  | _ => none

/-- A map entry is sound: it points at a function of the module whose
hook-calls signature is exactly the entry's key/customHooks pair. -/
def entrySound (m : List Stmt) (e : SigEntry) : Prop :=
  ∃ fn, sigTarget m e = some fn ∧
    getHookCallsSignature fn = some ⟨e.key, e.customHooks⟩

/-- An output declarator that denotes an untouched original declarator. -/
def eraseVarDecl : OutVarDecl → Option TopVarDecl
  | OutVarDecl.orig d => some d
  | _ => none

/-- Option-traversal of `eraseVarDecl` over a declarator list. -/
def eraseDecls : List OutVarDecl → Option (List TopVarDecl)
  | [] => some []
  | d :: ds =>
      match eraseVarDecl d, eraseDecls ds with
      | some d', some ds' => some (d' :: ds')
      | _, _ => none

/-- The original statement an output statement denotes unchanged, when it
does: a passed-through statement, or a rebuilt variable statement all of
whose declarators passed through. -/
def eraseOut : OutStmt → Option Stmt
  | OutStmt.orig s => some s
  | OutStmt.varStmtRw ds cs =>
      (eraseDecls ds).map (fun decls => Stmt.varStmt ⟨decls, cs⟩)
  | _ => none

/-- Recognizer for signature-recording statements. -/
def isSigRecord : OutStmt → Bool
  | OutStmt.sigRecord _ _ => true
  | _ => false

/-- Two textually identical bare hook call statements (C6): swapping them is
the identity on the body. -/
def swapSiteA : BodyStmt := BodyStmt.exprCall ⟨Callee.ident ("useMyHook"), []⟩

/-- See `swapSiteA`. -/
def swapSiteB : BodyStmt := BodyStmt.exprCall ⟨Callee.ident ("useMyHook"), []⟩

/-- C1: on the module `function Counter(){ const [n,setN]=useState(0);
useMyHook(); return null }` followed by `function useMyHook(){ return 1 }`,
the transform emits exactly one signature, owned by `Counter`, with key
`"useState{[n,setN](0)}\nuseMyHook{}"`, customHooks exactly `["useMyHook"]`
and forceReset `false`, and the output ends with exactly one registration
call for the identifier `Counter` with the string literal `"Counter"`. -/
theorem c1_end_to_end : transform counterModule =
    [OutStmt.sigDecls [0],
     OutStmt.funcDeclRw (some ("Counter"))
       (OutBodyStmt.sigEntry 0 :: counterBody.map OutBodyStmt.orig),
     OutStmt.sigRecord 0
       [SigArg.ident ("Counter"),
        SigArg.str ("useState{[n,setN](0)}\nuseMyHook{}"),
        SigArg.boolLit false,
        SigArg.hooksFn [("useMyHook")]],
     OutStmt.orig (Stmt.funcDecl ⟨some ("useMyHook"), ⟨some [BodyStmt.other]⟩, []⟩),
     OutStmt.register ("Counter")] := by decide

/-- C2 counterexample: in `counterModule` the component's body calls the
custom hook `useMyHook`, whose own declaration appears later in top-level
order, yet the emitted recording call keeps `useMyHook` in its customHooks
function and passes forceReset `false` - the claimed drop/forceReset does not
happen, because the hook-name set is consulted only after the full scan. -/
theorem c2_counterexample :
    ∃ args, recordsIn (transform counterModule) = [(0, args)] ∧
      SigArg.hooksFn [("useMyHook")] ∈ args ∧
      SigArg.boolLit false ∈ args ∧
      SigArg.boolLit true ∉ args := by
  refine ⟨[SigArg.ident ("Counter"),
    SigArg.str ("useState{[n,setN](0)}\nuseMyHook{}"),
    SigArg.boolLit false,
    SigArg.hooksFn [("useMyHook")]], by decide, by decide, by decide, by decide⟩

/-- C3 counterexample: in the multi-declarator body statement
`const a = useMyHook(), b = useMyOther()` both extracted call sites carry the
declarator's binding text (`"a"`, `"b"`) as bindingKey - not the empty string
the claim requires for multi-declarator statements. -/
theorem c3_counterexample :
    stmtHookCalls (BodyStmt.varStmt
        [⟨"a", some (BodyInit.call ⟨Callee.ident ("useMyHook"), []⟩)⟩,
         ⟨"b", some (BodyInit.call ⟨Callee.ident ("useMyOther"), []⟩)⟩]) =
      [⟨"useMyHook", "a"⟩, ⟨"useMyOther", "b"⟩] ∧ ("a" : String) ≠ "" := by
  exact ⟨by decide, by decide⟩

/-- C3 (amended): every extracted hook call's bindingKey is the parent
declarator's binding-pattern text whenever the call is a declarator's
initializer - in single- and multi-declarator statements alike - and is empty
exactly when there is no parent declarator (a bare expression-statement
call); the argument fragment is appended to it. -/
theorem c3_amended (pb : Option String) (c : CallExpr) (hc : HookCall)
    (h : _getHookCallSignature pb c = some hc) :
    hc.key = (pb.getD "") ++ argKeyFragment hc.name c.args := by
  obtain ⟨callee, args⟩ := c
  cases callee with
  | otherCallee => exact absurd h (by simp [_getHookCallSignature])
  | ident n =>
      simp only [_getHookCallSignature, hookCallOf] at h
      split at h
      · exact absurd h (by simp)
      · cases h
        rfl
  | propAccess n =>
      simp only [_getHookCallSignature, hookCallOf] at h
      split at h
      · exact absurd h (by simp)
      · cases h
        rfl

/-- Witness for `c3_amended` at the call `const a = useMyHook()`. -/
theorem c3_amended_witness :
    _getHookCallSignature (some ("a")) ⟨Callee.ident ("useMyHook"), []⟩ =
        some ⟨"useMyHook", "a"⟩ ∧
    (⟨"useMyHook", "a"⟩ : HookCall).key =
      ((some ("a") : Option String).getD "") ++ argKeyFragment ("useMyHook") [] :=
  ⟨by decide,
   c3_amended (some ("a")) ⟨Callee.ident ("useMyHook"), []⟩ ⟨"useMyHook", "a"⟩ (by decide)⟩

/-! ## Emission-time custom-hook resolution (C4, C7) -/

/-- When the emitted forceReset flag is true, it is passed as the third
argument of the recording call. -/
theorem sigRecordArgs_true_third (nm k : String) (ch : List String) :
    (sigRecordArgs nm k true ch)[2]? = some (SigArg.boolLit true) := by
  simp [sigRecordArgs]

/-- C4: a custom hook name absent from the module's hook-name set is dropped
by the emission-time filter, the emitted forceReset is true (and hence passed
as the third argument), and every emitted getCustomHooks list omits the
name. -/
theorem c4_unresolved_hook (seen ch : List String) (nm k : String) (frc : Bool)
    (n : String) (hmem : n ∈ ch) (habs : seen.contains n = false) :
    n ∉ resolveHooks seen ch ∧
    resolvedForceReset frc seen ch = true ∧
    (sigRecordArgs nm k (resolvedForceReset frc seen ch) (resolveHooks seen ch))[2]? =
      some (SigArg.boolLit true) ∧
    (∀ names, SigArg.hooksFn names ∈
        sigRecordArgs nm k (resolvedForceReset frc seen ch) (resolveHooks seen ch) →
      n ∉ names) := by
  have hnot : n ∉ resolveHooks seen ch := by
    intro hIn
    rcases List.mem_filter.mp hIn with ⟨-, hp⟩
    rw [habs] at hp
    cases hp
  have hlt : (resolveHooks seen ch).length < ch.length := by
    exact List.length_filter_lt_length_iff_exists.mpr ⟨n, hmem, by simpa using habs⟩
  have hfr : resolvedForceReset frc seen ch = true := by
    have : ((resolveHooks seen ch).length != ch.length) = true := by
      simp [bne_iff_ne]
      exact Nat.ne_of_lt hlt
    simp [resolvedForceReset, this]
  refine ⟨hnot, hfr, ?_, ?_⟩
  · rw [hfr]; exact sigRecordArgs_true_third nm k _
  · intro names hIn
    have : names = resolveHooks seen ch := by
      simp only [sigRecordArgs] at hIn
      rcases List.mem_append.mp hIn with h | h
      · simp at h
      · split at h
        · rcases List.mem_append.mp h with h' | h'
          · simp at h'
          · split at h'
            · simp at h'
              exact h'
            · simp at h'
        · simp at h
    rw [this]
    exact hnot

/-- Witness for `c4_unresolved_hook`: `useMissing` referenced with an empty
hook-name set. -/
theorem c4_witness :
    (("useMissing" : String) ∈ [("useMissing" : String)] ∧
      (([] : List String)).contains ("useMissing") = false) ∧
    (("useMissing" : String) ∉ resolveHooks [] [("useMissing")] ∧
      resolvedForceReset false [] [("useMissing")] = true ∧
      (sigRecordArgs ("C") ("k") (resolvedForceReset false [] [("useMissing")])
        (resolveHooks [] [("useMissing")]))[2]? = some (SigArg.boolLit true) ∧
      (∀ names, SigArg.hooksFn names ∈
          sigRecordArgs ("C") ("k") (resolvedForceReset false [] [("useMissing")])
            (resolveHooks [] [("useMissing")]) →
        ("useMissing" : String) ∉ names)) :=
  ⟨⟨by decide, by decide⟩,
   c4_unresolved_hook [] [("useMissing")] ("C") ("k") false ("useMissing")
     (by decide) (by decide)⟩

/-- Every recording statement collected while rewriting one top-level
declarator is built by `sigRecordArgs` from the enclosing statement's
comment flag and the emission-time resolution of some map entry. -/
theorem mem_rewriteVarDecl_snd (seen : List String) (sigs : List SigEntry)
    (i : Nat) (frc : Bool) (p : Nat × TopVarDecl) (o : OutStmt)
    (h : o ∈ (rewriteVarDecl seen sigs i frc p).2) :
    ∃ (nm : String) (e : SigEntry), o = OutStmt.sigRecord e.id (sigRecordArgs nm e.key
      (resolvedForceReset frc seen e.customHooks) (resolveHooks seen e.customHooks)) := by
  obtain ⟨di, d⟩ := p
  obtain ⟨dn, dinit⟩ := d
  cases dn with
  | pattern t => simp [rewriteVarDecl] at h
  | ident nm =>
      cases dinit with
      | none => simp [rewriteVarDecl] at h
      | some ti =>
          cases ti with
          | otherInit => simp [rewriteVarDecl] at h
          | fnExpr fn =>
              cases he : findSig sigs i di with
              | none => simp [rewriteVarDecl, he] at h
              | some e =>
                  cases hb : fn.body with
                  | none => simp [rewriteVarDecl, he, _sign, hb] at h
                  | some stmts =>
                      simp [rewriteVarDecl, he, _sign, hb] at h
                      exact ⟨nm, e, h⟩
          | arrow fn =>
              cases he : findSig sigs i di with
              | none => simp [rewriteVarDecl, he] at h
              | some e =>
                  cases hb : fn.body with
                  | none => simp [rewriteVarDecl, he, _sign, hb] at h
                  | some stmts =>
                      simp [rewriteVarDecl, he, _sign, hb] at h
                      exact ⟨nm, e, h⟩

/-- Every recording statement emitted for a top-level statement is built by
`sigRecordArgs` from that statement's own comment flag and an entry's
resolved hooks. -/
theorem mem_rewriteStmt_record (seen : List String) (sigs : List SigEntry)
    (i : Nat) (s : Stmt) (sid : Nat) (args : List SigArg)
    (h : OutStmt.sigRecord sid args ∈ rewriteStmt seen sigs i s) :
    ∃ (nm : String) (e : SigEntry), sid = e.id ∧ args = sigRecordArgs nm e.key
      (resolvedForceReset (hasResetComment (stmtComments s)) seen e.customHooks)
      (resolveHooks seen e.customHooks) := by
  cases s with
  | funcDecl fd =>
      cases he : findSig sigs i 0 with
      | none => simp [rewriteStmt, he] at h
      | some e =>
          cases hb : fd.fn.body with
          | none => simp [rewriteStmt, he, _sign, hb] at h
          | some stmts =>
              simp [rewriteStmt, he, _sign, hb] at h
              exact ⟨fd.name.getD "", e, h.1, h.2⟩
  | varStmt vs =>
      simp only [rewriteStmt] at h
      rcases List.mem_cons.mp h with h' | h'
      · simp at h'
      · rcases List.mem_flatten.mp h' with ⟨l, hl, ho⟩
        rcases List.mem_map.mp hl with ⟨r, hr, rfl⟩
        rcases List.mem_map.mp hr with ⟨p, hp, rfl⟩
        rcases mem_rewriteVarDecl_snd seen sigs i (hasResetComment vs.comments) p _ ho
          with ⟨nm, e, heq⟩
        cases heq
        exact ⟨nm, e, rfl, rfl⟩
  | importDecl im => simp [rewriteStmt] at h
  | other t => simp [rewriteStmt] at h

/-- C7: a leading comment containing `@refresh reset` makes every
signature-recording call emitted for that statement pass forceReset = true as
its third argument, regardless of the custom-hook resolution outcome. -/
theorem c7_reset_comment (seen : List String) (sigs : List SigEntry) (i : Nat)
    (s : Stmt) (hc : hasResetComment (stmtComments s) = true)
    (sid : Nat) (args : List SigArg)
    (hmem : OutStmt.sigRecord sid args ∈ rewriteStmt seen sigs i s) :
    args[2]? = some (SigArg.boolLit true) := by
  rcases mem_rewriteStmt_record seen sigs i s sid args hmem with ⟨nm, e, -, rfl⟩
  have hfr : resolvedForceReset (hasResetComment (stmtComments s)) seen e.customHooks = true := by
    rw [hc]
    simp [resolvedForceReset]
  rw [hfr]
  exact sigRecordArgs_true_third nm e.key _

/-- Witness for `c7_reset_comment`: a commented function declaration. -/
theorem c7_witness :
    (hasResetComment (stmtComments
        (Stmt.funcDecl ⟨some ("C"), ⟨some []⟩, ["/* @refresh reset */"]⟩)) = true ∧
      OutStmt.sigRecord 7 [SigArg.ident ("C"), SigArg.str ("KEY"), SigArg.boolLit true] ∈
        rewriteStmt [] [⟨0, 0, 7, "KEY", []⟩] 0
          (Stmt.funcDecl ⟨some ("C"), ⟨some []⟩, ["/* @refresh reset */"]⟩)) ∧
    ([SigArg.ident ("C"), SigArg.str ("KEY"), SigArg.boolLit true] : List SigArg)[2]? =
      some (SigArg.boolLit true) :=
  ⟨⟨by decide, by decide⟩,
   c7_reset_comment [] [⟨0, 0, 7, "KEY", []⟩] 0
     (Stmt.funcDecl ⟨some ("C"), ⟨some []⟩, ["/* @refresh reset */"]⟩) (by decide)
     7 [SigArg.ident ("C"), SigArg.str ("KEY"), SigArg.boolLit true] (by decide)⟩

/-! ## String cancellation and join lemmas (C5, C6) -/

/-- Strings with equal character data are equal. -/
theorem strData_inj {a b : String} (h : a.data = b.data) : a = b := by
  cases a
  cases b
  exact congrArg String.mk h

/-- Left cancellation for string append. -/
theorem strApp_left_cancel {a b c : String} (h : a ++ b = a ++ c) : b = c := by
  apply strData_inj
  have hd := congrArg String.data h
  rw [String.data_append, String.data_append] at hd
  exact List.append_cancel_left hd

/-- Right cancellation for string append. -/
theorem strApp_right_cancel {a b c : String} (h : a ++ c = b ++ c) : a = b := by
  apply strData_inj
  have hd := congrArg String.data h
  rw [String.data_append, String.data_append] at hd
  exact List.append_cancel_right hd

/-- `joinSep` unfolds on a cons with nonempty tail. -/
theorem joinSep_cons_ne (sep x : String) (l : List String) (h : l ≠ []) :
    joinSep sep (x :: l) = x ++ sep ++ joinSep sep l := by
  cases l with
  | nil => exact absurd rfl h
  | cons y ys => rfl

/-- Joining lists equal except possibly at one position determines that
position's element. -/
theorem joinSep_mid_inj (sep : String) (p q : List String) (x y : String)
    (h : joinSep sep (p ++ x :: q) = joinSep sep (p ++ y :: q)) : x = y := by
  induction p with
  | nil =>
      simp only [List.nil_append] at h
      cases q with
      | nil => exact h
      | cons z zs =>
          rw [joinSep_cons_ne sep x (z :: zs) (by simp),
            joinSep_cons_ne sep y (z :: zs) (by simp)] at h
          exact strApp_right_cancel (strApp_right_cancel h)
  | cons a p ih =>
      simp only [List.cons_append] at h
      rw [joinSep_cons_ne sep a (p ++ x :: q) (by simp),
        joinSep_cons_ne sep a (p ++ y :: q) (by simp)] at h
      exact ih (strApp_left_cancel h)

/-- The rendered call string determines the seed argument text, for a fixed
hook name and binding text. -/
theorem renderKeyed_inj (name bind t1 t2 : String)
    (h : renderCall ⟨name, bind ++ (("(") ++ t1 ++ (")"))⟩ =
         renderCall ⟨name, bind ++ (("(") ++ t2 ++ (")"))⟩) : t1 = t2 := by
  unfold renderCall at h
  have h1 := strApp_right_cancel h
  have h2 := strApp_left_cancel h1
  have h3 := strApp_left_cancel h2
  have h4 := strApp_right_cancel h3
  exact strApp_left_cancel h4

/-- `stmtHookCalls` distributes over declarator-list append. -/
theorem stmtHookCalls_varStmt_append (a b : List BodyVarDecl) :
    stmtHookCalls (BodyStmt.varStmt (a ++ b)) =
      stmtHookCalls (BodyStmt.varStmt a) ++ stmtHookCalls (BodyStmt.varStmt b) := by
  simp [stmtHookCalls, List.filterMap_append]

/-- The calls extracted from a seed-site statement: the fixed surroundings
and, in the middle, the seed call with its argument text in parentheses. -/
theorem seed_elem (site : SeedSite) (t : String) :
    stmtHookCalls (site.mkStmt t) =
      sitePre site ++
        [⟨site.hook, site.bindText ++ (("(") ++ t ++ (")"))⟩] ++ sitePost site := by
  cases site with
  | stateBare rest => rfl
  | reducerBare a0 rest => rfl
  | stateBound dp dq b rest =>
      show stmtHookCalls (BodyStmt.varStmt (dp ++ [_] ++ dq)) = _
      rw [stmtHookCalls_varStmt_append (dp ++ [_]) dq, stmtHookCalls_varStmt_append dp [_]]
      rfl
  | reducerBound dp dq b a0 rest =>
      show stmtHookCalls (BodyStmt.varStmt (dp ++ [_] ++ dq)) = _
      rw [stmtHookCalls_varStmt_append (dp ++ [_]) dq, stmtHookCalls_varStmt_append dp [_]]
      rfl

/-- `bodyCalls` distributes over statement-list append. -/
theorem bodyCalls_append (a b : List BodyStmt) :
    bodyCalls (a ++ b) = bodyCalls a ++ bodyCalls b := by
  simp [bodyCalls]

/-- `bodyCalls` on a cons. -/
theorem bodyCalls_cons (s : BodyStmt) (l : List BodyStmt) :
    bodyCalls (s :: l) = stmtHookCalls s ++ bodyCalls l := rfl

/-- `getHookCallsSignature` on a block body with at least one extracted call. -/
theorem getHCS_some (stmts : List BodyStmt) (hne : bodyCalls stmts ≠ []) :
    getHookCallsSignature ⟨some stmts⟩ = some
      { key := joinSep ("\n") ((bodyCalls stmts).map renderCall),
        customHooks := ((bodyCalls stmts).filter
          (fun c => !isBuiltinHook c.name)).map HookCall.name } := by
  unfold getHookCallsSignature
  have hlen : ((bodyCalls stmts).length == 0) = false := by
    rw [beq_eq_false_iff_ne]
    simpa [List.length_eq_zero] using hne
  simp [hlen]

/-- C5: changing only the raw source text of the seed argument of a direct
`useState` call (first argument) or `useReducer` call (second argument), with
no hook call added, removed, or reordered, changes the function's aggregate
key, because the argument's text is appended in parentheses to the call
site's binding key. -/
theorem c5_seed_arg (pre post : List BodyStmt) (site : SeedSite) (t1 t2 : String)
    (hne : t1 ≠ t2) :
    ∃ s1 s2,
      getHookCallsSignature ⟨some (pre ++ site.mkStmt t1 :: post)⟩ = some s1 ∧
      getHookCallsSignature ⟨some (pre ++ site.mkStmt t2 :: post)⟩ = some s2 ∧
      s1.key ≠ s2.key := by
  have hcalls : ∀ t, bodyCalls (pre ++ site.mkStmt t :: post) =
      (bodyCalls pre ++ sitePre site) ++
        (⟨site.hook, site.bindText ++ (("(") ++ t ++ (")"))⟩ :: (sitePost site ++ bodyCalls post)) := by
    intro t
    rw [bodyCalls_append, bodyCalls_cons, seed_elem]
    simp [List.append_assoc]
  have hne1 : bodyCalls (pre ++ site.mkStmt t1 :: post) ≠ [] := by
    rw [hcalls t1]
    simp
  have hne2 : bodyCalls (pre ++ site.mkStmt t2 :: post) ≠ [] := by
    rw [hcalls t2]
    simp
  refine ⟨_, _, getHCS_some _ hne1, getHCS_some _ hne2, ?_⟩
  intro hkey
  simp only [hcalls t1, hcalls t2, List.map_append, List.map_cons] at hkey
  have hrender := joinSep_mid_inj ("\n") _ _ _ _ hkey
  exact hne (renderKeyed_inj site.hook site.bindText t1 t2 hrender)

/-- Witness for `c5_seed_arg`: `useState(0)` versus `useState(1)` as the whole
body. -/
theorem c5_witness :
    (("0" : String) ≠ ("1" : String)) ∧
    (∃ s1 s2,
      getHookCallsSignature ⟨some ([] ++ (SeedSite.stateBare []).mkStmt ("0") :: [])⟩ = some s1 ∧
      getHookCallsSignature ⟨some ([] ++ (SeedSite.stateBare []).mkStmt ("1") :: [])⟩ = some s2 ∧
      s1.key ≠ s2.key) :=
  ⟨by decide, c5_seed_arg [] [] (SeedSite.stateBare []) ("0") ("1") (by decide)⟩

/-! ## Newline-free join injectivity (C6) -/

/-- Splitting around a separator character occurring in neither prefix. -/
theorem sep_split_inj {c : Char} : ∀ (a b s t : List Char),
    a ++ c :: s = b ++ c :: t → c ∉ a → c ∉ b → a = b ∧ s = t := by
  intro a
  induction a with
  | nil =>
      intro b s t h _ hb
      cases b with
      | nil => simpa using h
      | cons x bs =>
          simp only [List.nil_append, List.cons_append, List.cons.injEq] at h
          exact absurd (h.1 ▸ List.mem_cons_self x bs) hb
  | cons x as ih =>
      intro b s t h ha hb
      cases b with
      | nil =>
          simp only [List.cons_append, List.nil_append, List.cons.injEq] at h
          exact absurd (h.1.symm ▸ List.mem_cons_self x as) ha
      | cons y bs =>
          simp only [List.cons_append, List.cons.injEq] at h
          obtain ⟨hxy, hrest⟩ := h
          obtain ⟨hab, hst⟩ := ih bs s t hrest
            (fun hm => ha (List.mem_cons_of_mem x hm))
            (fun hm => hb (List.mem_cons_of_mem y hm))
          exact ⟨by rw [hxy, hab], hst⟩

/-- A join step with newline-free heads determines head and tail. -/
theorem joinHead_inj {x y J1 J2 : String} (hx : noNewline x) (hy : noNewline y)
    (h : x ++ ("\n") ++ J1 = y ++ ("\n") ++ J2) : x = y ∧ J1 = J2 := by
  have hd := congrArg String.data h
  simp only [String.data_append] at hd
  have hd' : x.data ++ '\n' :: J1.data = y.data ++ '\n' :: J2.data := by
    simpa [List.append_assoc] using hd
  obtain ⟨h1, h2⟩ := sep_split_inj _ _ _ _ hd' hx hy
  exact ⟨strData_inj h1, strData_inj h2⟩

/-- On equal-length lists of newline-free strings, joining with a line break
is injective. -/
theorem joinSep_nl_inj : ∀ (l1 l2 : List String), l1.length = l2.length →
    (∀ s ∈ l1, noNewline s) → (∀ s ∈ l2, noNewline s) →
    joinSep ("\n") l1 = joinSep ("\n") l2 → l1 = l2 := by
  intro l1
  induction l1 with
  | nil =>
      intro l2 hlen _ _ _
      cases l2 with
      | nil => rfl
      | cons y ys => simp at hlen
  | cons x xs ih =>
      intro l2 hlen hm1 hm2 hj
      cases l2 with
      | nil => simp at hlen
      | cons y ys =>
          cases xs with
          | nil =>
              cases ys with
              | nil => simpa [joinSep] using hj
              | cons z zs => simp at hlen
          | cons x2 xs2 =>
              cases ys with
              | nil => simp at hlen
              | cons y2 ys2 =>
                  rw [joinSep_cons_ne ("\n") x (x2 :: xs2) (by simp),
                    joinSep_cons_ne ("\n") y (y2 :: ys2) (by simp)] at hj
                  obtain ⟨hxy, hrest⟩ :=
                    joinHead_inj (hm1 x (by simp)) (hm2 y (by simp)) hj
                  have htail := ih (y2 :: ys2) (by simpa using hlen)
                    (fun s hs => hm1 s (by simp [hs]))
                    (fun s hs => hm2 s (by simp [hs])) hrest
                  rw [hxy, htail]

/-- C6 counterexample: `swapSiteA` and `swapSiteB` are two hook call sites in
a function body's direct statements, yet swapping their source order leaves
the aggregate key unchanged, because the two sites are textually identical. -/
theorem c6_counterexample :
    stmtHookCalls swapSiteA = [⟨"useMyHook", ""⟩] ∧
    stmtHookCalls swapSiteB = [⟨"useMyHook", ""⟩] ∧
    (getHookCallsSignature ⟨some [swapSiteA, swapSiteB]⟩).map HCSig.key =
      (getHookCallsSignature ⟨some [swapSiteB, swapSiteA]⟩).map HCSig.key :=
  ⟨by decide, by decide, by decide⟩

/-- C6 (amended): swapping the source order of two hook call sites whose
extracted call-site strings `name{bindingKey+argKeyFragment}` are distinct
changes the function's aggregate key, provided no call site of the body
renders with an embedded line break (the key is the rendered strings joined
by line breaks in source order). -/
theorem c6_swap_changes_key (p mid q : List BodyStmt) (s1 s2 : BodyStmt)
    (c1 c2 : HookCall)
    (h1 : stmtHookCalls s1 = [c1]) (h2 : stmtHookCalls s2 = [c2])
    (hne : renderCall c1 ≠ renderCall c2)
    (hnl : ∀ c ∈ bodyCalls (p ++ s1 :: (mid ++ s2 :: q)), noNewline (renderCall c)) :
    ∃ g1 g2,
      getHookCallsSignature ⟨some (p ++ s1 :: (mid ++ s2 :: q))⟩ = some g1 ∧
      getHookCallsSignature ⟨some (p ++ s2 :: (mid ++ s1 :: q))⟩ = some g2 ∧
      g1.key ≠ g2.key := by
  have e1 : bodyCalls (p ++ s1 :: (mid ++ s2 :: q)) =
      bodyCalls p ++ c1 :: (bodyCalls mid ++ c2 :: bodyCalls q) := by
    rw [bodyCalls_append, bodyCalls_cons, bodyCalls_append, bodyCalls_cons, h1, h2]
    simp
  have e2 : bodyCalls (p ++ s2 :: (mid ++ s1 :: q)) =
      bodyCalls p ++ c2 :: (bodyCalls mid ++ c1 :: bodyCalls q) := by
    rw [bodyCalls_append, bodyCalls_cons, bodyCalls_append, bodyCalls_cons, h1, h2]
    simp
  have hsub : ∀ c, c ∈ bodyCalls p ++ c2 :: (bodyCalls mid ++ c1 :: bodyCalls q) →
      c ∈ bodyCalls p ++ c1 :: (bodyCalls mid ++ c2 :: bodyCalls q) := by
    intro c hc
    simp only [List.mem_append, List.mem_cons] at hc ⊢
    tauto
  have hne1 : bodyCalls (p ++ s1 :: (mid ++ s2 :: q)) ≠ [] := by
    rw [e1]
    simp
  have hne2 : bodyCalls (p ++ s2 :: (mid ++ s1 :: q)) ≠ [] := by
    rw [e2]
    simp
  refine ⟨_, _, getHCS_some _ hne1, getHCS_some _ hne2, ?_⟩
  intro hkey
  rw [e1] at hnl
  simp only [e1, e2] at hkey
  have hlen : ((bodyCalls p ++ c1 :: (bodyCalls mid ++ c2 :: bodyCalls q)).map renderCall).length =
      ((bodyCalls p ++ c2 :: (bodyCalls mid ++ c1 :: bodyCalls q)).map renderCall).length := by
    simp
  have hm1 : ∀ s ∈ (bodyCalls p ++ c1 :: (bodyCalls mid ++ c2 :: bodyCalls q)).map renderCall,
      noNewline s := by
    intro s hs
    rcases List.mem_map.mp hs with ⟨c, hc, rfl⟩
    exact hnl c hc
  have hm2 : ∀ s ∈ (bodyCalls p ++ c2 :: (bodyCalls mid ++ c1 :: bodyCalls q)).map renderCall,
      noNewline s := by
    intro s hs
    rcases List.mem_map.mp hs with ⟨c, hc, rfl⟩
    exact hnl c (hsub c hc)
  have hlist := joinSep_nl_inj _ _ hlen hm1 hm2 hkey
  simp only [List.map_append, List.map_cons] at hlist
  have hmid := List.append_cancel_left hlist
  exact hne (by injection hmid)

/-- Witness for `c6_swap_changes_key`: swapping `useMyHook()` and
`useMyOther()`. -/
theorem c6_witness :
    (stmtHookCalls (BodyStmt.exprCall ⟨Callee.ident ("useMyHook"), []⟩) =
        [⟨"useMyHook", ""⟩] ∧
      stmtHookCalls (BodyStmt.exprCall ⟨Callee.ident ("useMyOther"), []⟩) =
        [⟨"useMyOther", ""⟩] ∧
      renderCall ⟨"useMyHook", ""⟩ ≠ renderCall ⟨"useMyOther", ""⟩ ∧
      (∀ c ∈ bodyCalls ([] ++ BodyStmt.exprCall ⟨Callee.ident ("useMyHook"), []⟩ ::
          ([] ++ BodyStmt.exprCall ⟨Callee.ident ("useMyOther"), []⟩ :: [])),
        noNewline (renderCall c))) ∧
    (∃ g1 g2,
      getHookCallsSignature ⟨some ([] ++ BodyStmt.exprCall ⟨Callee.ident ("useMyHook"), []⟩ ::
          ([] ++ BodyStmt.exprCall ⟨Callee.ident ("useMyOther"), []⟩ :: []))⟩ = some g1 ∧
      getHookCallsSignature ⟨some ([] ++ BodyStmt.exprCall ⟨Callee.ident ("useMyOther"), []⟩ ::
          ([] ++ BodyStmt.exprCall ⟨Callee.ident ("useMyHook"), []⟩ :: []))⟩ = some g2 ∧
      g1.key ≠ g2.key) :=
  ⟨⟨by decide, by decide, by decide, by decide⟩,
   c6_swap_changes_key [] [] [] (BodyStmt.exprCall ⟨Callee.ident ("useMyHook"), []⟩)
     (BodyStmt.exprCall ⟨Callee.ident ("useMyOther"), []⟩)
     ⟨"useMyHook", ""⟩ ⟨"useMyOther", ""⟩
     (by decide) (by decide) (by decide) (by decide)⟩

/-! ## Scan-pass structure lemmas -/

theorem pushSig_components (st : ScanState) (i di : Nat) (sig : HCSig) :
    (pushSig st i di sig).components = st.components := rfl

theorem pushSig_seen (st : ScanState) (i di : Nat) (sig : HCSig) :
    (pushSig st i di sig).seenHooks = st.seenHooks := rfl

/-- Composition of indexed map and `Prod.snd` over `enum`. -/
theorem enum_map_snd_comp {α β : Type} (l : List α) (f : α → β) :
    l.enum.map (fun p => f p.2) = l.map f := by
  rw [show (fun p : Nat × α => f p.2) = f ∘ Prod.snd from rfl, ← List.map_map,
    List.enum_map_snd]

theorem scanNamedFn_components (st : ScanState) (i di : Nat) (n : String) (fn : FnLike) :
    (scanNamedFn st i di n fn).components =
      st.components ++ (if isComponentishName n then [n] else []) := by
  unfold scanNamedFn
  cases hgc : getHookCallsSignature fn <;>
    simp only [hgc, pushSig_components] <;> split <;> split <;> simp_all

theorem scanVarDecl_components (i : Nat) (st : ScanState) (p : Nat × TopVarDecl) :
    (scanVarDecl i st p).components = st.components ++ declComponent p.2 := by
  obtain ⟨di, d⟩ := p
  obtain ⟨dn, dinit⟩ := d
  cases dn with
  | pattern t => simp [scanVarDecl, declComponent]
  | ident n =>
      cases dinit with
      | none => simp [scanVarDecl, declComponent]
      | some ti =>
          cases ti with
          | otherInit => simp [scanVarDecl, declComponent]
          | fnExpr fn => simp [scanVarDecl, declComponent, scanNamedFn_components]
          | arrow fn => simp [scanVarDecl, declComponent, scanNamedFn_components]

theorem foldl_scanVarDecl_components (i : Nat) :
    ∀ (l : List (Nat × TopVarDecl)) (st : ScanState),
      (l.foldl (scanVarDecl i) st).components =
        st.components ++ (l.map (fun p => declComponent p.2)).flatten := by
  intro l
  induction l with
  | nil => intro st; simp
  | cons p l ih =>
      intro st
      simp only [List.foldl_cons, List.map_cons, List.flatten_cons]
      rw [ih, scanVarDecl_components]
      simp [List.append_assoc]

theorem foldl_hookImport_components : ∀ (l : List String) (st : ScanState),
    (l.foldl (fun s n =>
      if isHookName n then { s with seenHooks := addHook s.seenHooks n } else s) st).components
      = st.components := by
  intro l
  induction l with
  | nil => intro st; rfl
  | cons n l ih =>
      intro st
      simp only [List.foldl_cons]
      rw [ih]
      split <;> rfl

theorem scanImport_components (st : ScanState) (im : ImportDecl) :
    (scanImport st im).components = st.components := by
  unfold scanImport
  rw [foldl_hookImport_components]
  cases im.defaultName <;> simp only [] <;> split <;> rfl

theorem scanStep_components (st : ScanState) (p : Nat × Stmt) :
    (scanStep st p).components = st.components ++ stmtComponents p.2 := by
  obtain ⟨i, s⟩ := p
  cases s with
  | funcDecl fd =>
      unfold scanStep scanFuncDecl
      cases hn : fd.name with
      | none =>
          cases hgc : getHookCallsSignature fd.fn <;>
            simp [hgc, stmtComponents, hn, pushSig_components]
      | some n =>
          cases hgc : getHookCallsSignature fd.fn <;>
            simp only [hgc, hn, stmtComponents, pushSig_components] <;>
            split <;> split <;> simp_all
  | varStmt vs =>
      unfold scanStep
      rw [foldl_scanVarDecl_components, enum_map_snd_comp]
      rfl
  | importDecl im =>
      unfold scanStep
      rw [scanImport_components]
      simp [stmtComponents]
  | other t => simp [scanStep, stmtComponents]

theorem foldl_scanStep_components : ∀ (l : List (Nat × Stmt)) (st : ScanState),
    (l.foldl scanStep st).components =
      st.components ++ (l.map (fun p => stmtComponents p.2)).flatten := by
  intro l
  induction l with
  | nil => intro st; simp
  | cons p l ih =>
      intro st
      simp only [List.foldl_cons, List.map_cons, List.flatten_cons]
      rw [ih, scanStep_components]
      simp [List.append_assoc]

/-- The scan's component list is the per-statement component rule applied in
order. -/
theorem scan_components (m : List Stmt) :
    (scan m).components = (m.map stmtComponents).flatten := by
  unfold scan
  rw [foldl_scanStep_components, enum_map_snd_comp]
  rfl

theorem mem_addHook {hs : List String} {x : String} (n : String) (h : x ∈ hs) :
    x ∈ addHook hs n := by
  unfold addHook
  split
  · exact h
  · exact List.mem_append_left _ h

theorem mem_addHook_self (hs : List String) (n : String) : n ∈ addHook hs n := by
  unfold addHook
  split
  next hc => exact List.mem_of_elem_eq_true hc
  next => exact List.mem_append_right _ (List.mem_singleton_self n)

theorem seen_mono_scanNamedFn {st : ScanState} {x : String} (i di : Nat) (n : String)
    (fn : FnLike) (hx : x ∈ st.seenHooks) : x ∈ (scanNamedFn st i di n fn).seenHooks := by
  unfold scanNamedFn
  cases hgc : getHookCallsSignature fn <;>
    simp only [hgc, pushSig_seen] <;> split <;> split <;>
    first
      | exact hx
      | exact mem_addHook n hx
      | simp_all [mem_addHook]

theorem seen_mono_scanVarDecl {st : ScanState} {x : String} (i : Nat)
    (p : Nat × TopVarDecl) (hx : x ∈ st.seenHooks) :
    x ∈ (scanVarDecl i st p).seenHooks := by
  obtain ⟨di, d⟩ := p
  obtain ⟨dn, dinit⟩ := d
  cases dn with
  | pattern t => exact hx
  | ident n =>
      cases dinit with
      | none => exact hx
      | some ti =>
          cases ti with
          | otherInit => exact hx
          | fnExpr fn => exact seen_mono_scanNamedFn i di n fn hx
          | arrow fn => exact seen_mono_scanNamedFn i di n fn hx

theorem seen_mono_foldl_scanVarDecl {x : String} (i : Nat) :
    ∀ (l : List (Nat × TopVarDecl)) (st : ScanState), x ∈ st.seenHooks →
      x ∈ (l.foldl (scanVarDecl i) st).seenHooks := by
  intro l
  induction l with
  | nil => intro st hx; exact hx
  | cons p l ih => intro st hx; exact ih _ (seen_mono_scanVarDecl i p hx)

theorem seen_mono_hookImportFold {x : String} :
    ∀ (l : List String) (st : ScanState), x ∈ st.seenHooks →
      x ∈ (l.foldl (fun s n =>
        if isHookName n then { s with seenHooks := addHook s.seenHooks n } else s)
        st).seenHooks := by
  intro l
  induction l with
  | nil => intro st hx; exact hx
  | cons n l ih =>
      intro st hx
      refine ih _ ?_
      dsimp only
      split
      · exact mem_addHook n hx
      · exact hx

theorem seen_mono_scanImport {st : ScanState} {x : String} (im : ImportDecl)
    (hx : x ∈ st.seenHooks) : x ∈ (scanImport st im).seenHooks := by
  unfold scanImport
  refine seen_mono_hookImportFold _ _ ?_
  cases im.defaultName with
  | none => exact hx
  | some n =>
      simp only []
      split
      · exact mem_addHook n hx
      · exact hx

theorem seen_mono_scanFuncDecl {st : ScanState} {x : String} (i : Nat) (fd : FuncDecl)
    (hx : x ∈ st.seenHooks) : x ∈ (scanFuncDecl st i fd).seenHooks := by
  unfold scanFuncDecl
  cases hgc : getHookCallsSignature fd.fn <;>
    cases hn : fd.name <;>
    simp only [hgc, hn, pushSig_seen] <;>
    first
      | exact hx
      | (split <;> split <;>
          first
            | exact hx
            | exact mem_addHook _ hx
            | simp_all [mem_addHook])

theorem seen_mono_scanStep {st : ScanState} {x : String} (p : Nat × Stmt)
    (hx : x ∈ st.seenHooks) : x ∈ (scanStep st p).seenHooks := by
  obtain ⟨i, s⟩ := p
  cases s with
  | funcDecl fd => exact seen_mono_scanFuncDecl i fd hx
  | varStmt vs => exact seen_mono_foldl_scanVarDecl i _ _ hx
  | importDecl im => exact seen_mono_scanImport im hx
  | other t => exact hx

theorem seen_mono_foldl_scanStep {x : String} :
    ∀ (l : List (Nat × Stmt)) (st : ScanState), x ∈ st.seenHooks →
      x ∈ (l.foldl scanStep st).seenHooks := by
  intro l
  induction l with
  | nil => intro st hx; exact hx
  | cons p l ih => intro st hx; exact ih _ (seen_mono_scanStep p hx)

/-- Processing a hook-named function declaration puts its name into the set. -/
theorem seen_add_scanFuncDecl (st : ScanState) (i : Nat) (fd : FuncDecl) (h : String)
    (hn : fd.name = some h) (hh : isHookName h = true) :
    h ∈ (scanFuncDecl st i fd).seenHooks := by
  unfold scanFuncDecl
  cases hgc : getHookCallsSignature fd.fn <;>
    simp only [hgc, hn, pushSig_seen, hh, if_true] <;>
    split <;> exact mem_addHook_self _ h

/-- A hook-named top-level function declaration anywhere in the module is in
the scan's final hook-name set. -/
theorem hook_in_seen (m : List Stmt) (j : Nat) (fdh : FuncDecl) (h : String)
    (hj : m[j]? = some (Stmt.funcDecl fdh)) (hn : fdh.name = some h)
    (hh : isHookName h = true) : h ∈ (scan m).seenHooks := by
  have hmem : (j, Stmt.funcDecl fdh) ∈ m.enum := List.mk_mem_enum_iff_getElem?.mpr hj
  obtain ⟨l1, l2, hsplit⟩ := List.append_of_mem hmem
  unfold scan
  rw [hsplit, List.foldl_append, List.foldl_cons]
  exact seen_mono_foldl_scanStep l2 _ (seen_add_scanFuncDecl _ j fdh h hn hh)

/-! ## Soundness of the scan's signature entries -/

theorem mem_pushSig {st : ScanState} {i di : Nat} {sig : HCSig} {e : SigEntry}
    (h : e ∈ (pushSig st i di sig).sigs) :
    e ∈ st.sigs ∨ e = ⟨i, di, st.sigs.length, sig.key, sig.customHooks⟩ := by
  unfold pushSig at h
  rcases List.mem_append.mp h with h | h
  · exact Or.inl h
  · exact Or.inr (List.mem_singleton.mp h)

theorem sigs_scanNamedFn {st : ScanState} {e : SigEntry} (i di : Nat) (n : String)
    (fn : FnLike) (h : e ∈ (scanNamedFn st i di n fn).sigs) :
    e ∈ st.sigs ∨ (getHookCallsSignature fn = some ⟨e.key, e.customHooks⟩ ∧
      e.stmtIdx = i ∧ e.declIdx = di) := by
  unfold scanNamedFn at h
  cases hgc : getHookCallsSignature fn with
  | none =>
      simp only [hgc] at h
      split at h <;> split at h <;> exact Or.inl h
  | some sig =>
      simp only [hgc] at h
      rcases mem_pushSig h with h | rfl
      · split at h <;> split at h <;> exact Or.inl h
      · exact Or.inr ⟨rfl, rfl, rfl⟩

theorem entrySound_scanFuncDecl {m : List Stmt} {st : ScanState} {e : SigEntry}
    (i : Nat) (fd : FuncDecl) (hm : m[i]? = some (Stmt.funcDecl fd))
    (hst : ∀ e' ∈ st.sigs, entrySound m e')
    (h : e ∈ (scanFuncDecl st i fd).sigs) : entrySound m e := by
  unfold scanFuncDecl at h
  cases hgc : getHookCallsSignature fd.fn with
  | none =>
      simp only [hgc] at h
      cases hn : fd.name <;> simp only [hn] at h
      · exact hst e h
      · split at h <;> split at h <;> exact hst e h
  | some sig =>
      simp only [hgc] at h
      rcases mem_pushSig h with h | rfl
      · cases hn : fd.name <;> simp only [hn] at h
        · exact hst e h
        · split at h <;> split at h <;> exact hst e h
      · refine ⟨fd.fn, ?_, hgc⟩
        unfold sigTarget
        simp [hm]

theorem entrySound_scanVarDecl {m : List Stmt} {vs : VarStmtTop} {st : ScanState}
    {e : SigEntry} (i : Nat) (p : Nat × TopVarDecl)
    (hm : m[i]? = some (Stmt.varStmt vs)) (hp : vs.decls[p.1]? = some p.2)
    (hst : ∀ e' ∈ st.sigs, entrySound m e')
    (h : e ∈ (scanVarDecl i st p).sigs) : entrySound m e := by
  obtain ⟨di, d⟩ := p
  obtain ⟨dn, dinit⟩ := d
  cases dn with
  | pattern t => exact hst e h
  | ident n =>
      cases dinit with
      | none => exact hst e h
      | some ti =>
          cases ti with
          | otherInit => exact hst e h
          | fnExpr fn =>
              rcases sigs_scanNamedFn i di n fn h with h | ⟨hgc, h1, h2⟩
              · exact hst e h
              · refine ⟨fn, ?_, hgc⟩
                unfold sigTarget
                rw [h1, h2, hm]
                simp [hp]
          | arrow fn =>
              rcases sigs_scanNamedFn i di n fn h with h | ⟨hgc, h1, h2⟩
              · exact hst e h
              · refine ⟨fn, ?_, hgc⟩
                unfold sigTarget
                rw [h1, h2, hm]
                simp [hp]

theorem entrySound_foldl_scanVarDecl {m : List Stmt} {vs : VarStmtTop} (i : Nat)
    (hm : m[i]? = some (Stmt.varStmt vs)) :
    ∀ (l : List (Nat × TopVarDecl)) (st : ScanState),
      (∀ q ∈ l, vs.decls[q.1]? = some q.2) →
      (∀ e' ∈ st.sigs, entrySound m e') →
      ∀ e ∈ (l.foldl (scanVarDecl i) st).sigs, entrySound m e := by
  intro l
  induction l with
  | nil => intro st _ hst e he; exact hst e he
  | cons q l ih =>
      intro st hq hst e he
      exact ih _ (fun r hr => hq r (List.mem_cons_of_mem q hr))
        (fun e' he' =>
          entrySound_scanVarDecl i q hm (hq q (List.mem_cons_self q l)) hst he')
        e he

theorem foldl_hookImport_sigs : ∀ (l : List String) (st : ScanState),
    (l.foldl (fun s n =>
      if isHookName n then { s with seenHooks := addHook s.seenHooks n } else s) st).sigs
      = st.sigs := by
  intro l
  induction l with
  | nil => intro st; rfl
  | cons n l ih =>
      intro st
      simp only [List.foldl_cons]
      rw [ih]
      split <;> rfl

theorem sigs_scanImport (st : ScanState) (im : ImportDecl) :
    (scanImport st im).sigs = st.sigs := by
  unfold scanImport
  rw [foldl_hookImport_sigs]
  cases im.defaultName <;> simp only [] <;> split <;> rfl

theorem entrySound_scanStep {m : List Stmt} {st : ScanState} {e : SigEntry}
    (p : Nat × Stmt) (hm : m[p.1]? = some p.2)
    (hst : ∀ e' ∈ st.sigs, entrySound m e')
    (h : e ∈ (scanStep st p).sigs) : entrySound m e := by
  obtain ⟨i, s⟩ := p
  cases s with
  | funcDecl fd => exact entrySound_scanFuncDecl i fd hm hst h
  | varStmt vs =>
      refine entrySound_foldl_scanVarDecl i hm vs.decls.enum st ?_ hst e h
      intro q hq
      exact List.mem_enum_iff_getElem?.mp hq
  | importDecl im =>
      rw [show scanStep st (i, Stmt.importDecl im) = scanImport st im from rfl,
        sigs_scanImport] at h
      exact hst e h
  | other t => exact hst e h

theorem entrySound_foldl_scanStep {m : List Stmt} :
    ∀ (l : List (Nat × Stmt)) (st : ScanState),
      (∀ p ∈ l, m[p.1]? = some p.2) →
      (∀ e' ∈ st.sigs, entrySound m e') →
      ∀ e ∈ (l.foldl scanStep st).sigs, entrySound m e := by
  intro l
  induction l with
  | nil => intro st _ hst e he; exact hst e he
  | cons p l ih =>
      intro st hp hst e he
      exact ih _ (fun r hr => hp r (List.mem_cons_of_mem p hr))
        (fun e' he' => entrySound_scanStep p (hp p (List.mem_cons_self p l)) hst he')
        e he

/-- Every entry of the scan's map is sound for the scanned module. -/
theorem scan_sigs_sound (m : List Stmt) : ∀ e ∈ (scan m).sigs, entrySound m e := by
  unfold scan
  refine entrySound_foldl_scanStep m.enum _ ?_ ?_
  · intro p hp
    exact List.mem_enum_iff_getElem?.mp hp
  · intro e' he'
    simp at he'

/-! ## C10, C2 (amended), C8, C9 -/

/-- C10: every function the scanner assigned a hook-calls signature has a
block body; consequently the signing helper returns the rewritten
body/recording pair (the source's non-null assertion on it cannot fail), and
the rewritten body is exactly the zero-argument signature call followed by
the original body statements in order. -/
theorem c10_signed_block (m : List Stmt) (e : SigEntry) (he : e ∈ (scan m).sigs) :
    ∃ fn body, sigTarget m e = some fn ∧ fn.body = some body ∧
      getHookCallsSignature fn = some ⟨e.key, e.customHooks⟩ ∧
      ∀ nm frc ch, _sign fn nm e.id e.key frc ch =
        some (OutBodyStmt.sigEntry e.id :: body.map OutBodyStmt.orig,
          OutStmt.sigRecord e.id (sigRecordArgs nm e.key frc ch)) := by
  obtain ⟨fn, ht, hsig⟩ := scan_sigs_sound m e he
  obtain ⟨body, hb⟩ : ∃ body, fn.body = some body := by
    cases hfb : fn.body with
    | none => simp [getHookCallsSignature, hfb] at hsig
    | some b => exact ⟨b, rfl⟩
  refine ⟨fn, body, ht, hb, hsig, ?_⟩
  intro nm frc ch
  unfold _sign
  rw [hb]

/-- Witness for `c10_signed_block` at the end-to-end module's single entry. -/
theorem c10_witness :
    ((⟨0, 0, 0, "useState{[n,setN](0)}\nuseMyHook{}", [("useMyHook")]⟩ : SigEntry) ∈
      (scan counterModule).sigs) ∧
    (∃ fn body, sigTarget counterModule
        ⟨0, 0, 0, "useState{[n,setN](0)}\nuseMyHook{}", [("useMyHook")]⟩ = some fn ∧
      fn.body = some body ∧
      getHookCallsSignature fn =
        some ⟨"useState{[n,setN](0)}\nuseMyHook{}", [("useMyHook")]⟩ ∧
      ∀ nm frc ch, _sign fn nm 0 ("useState{[n,setN](0)}\nuseMyHook{}") frc ch =
        some (OutBodyStmt.sigEntry 0 :: body.map OutBodyStmt.orig,
          OutStmt.sigRecord 0
            (sigRecordArgs nm ("useState{[n,setN](0)}\nuseMyHook{}") frc ch))) :=
  ⟨by decide,
   c10_signed_block counterModule
     ⟨0, 0, 0, "useState{[n,setN](0)}\nuseMyHook{}", [("useMyHook")]⟩ (by decide)⟩

/-- C2 (amended): when a function's body directly calls a custom hook whose
own declaration appears later in the module's top-level order, the hook IS in
the hook-name set by the time customHookNames are resolved - resolution runs
only after the full module scan - so the hook is kept by the emission-time
filter; and when every one of the function's custom hooks resolves, the
emitted recording call keeps the full list and forceReset reduces to the
comment directive alone. -/
theorem c2_amended (m : List Stmt) (i j : Nat) (fd fdh : FuncDecl) (e : SigEntry)
    (h : String) (_hij : i < j)
    (hi : m[i]? = some (Stmt.funcDecl fd))
    (hj : m[j]? = some (Stmt.funcDecl fdh))
    (hn : fdh.name = some h) (hh : isHookName h = true)
    (he : findSig (scan m).sigs i 0 = some e)
    (hmem : h ∈ e.customHooks) :
    h ∈ resolveHooks (scan m).seenHooks e.customHooks ∧
    (resolveHooks (scan m).seenHooks e.customHooks = e.customHooks →
      ∃ body, fd.fn.body = some body ∧
        rewriteStmt (scan m).seenHooks (scan m).sigs i (Stmt.funcDecl fd) =
          [OutStmt.funcDeclRw fd.name
            (OutBodyStmt.sigEntry e.id :: body.map OutBodyStmt.orig),
           OutStmt.sigRecord e.id (sigRecordArgs (fd.name.getD "") e.key
             (hasResetComment fd.comments) e.customHooks)]) := by
  have hseen : h ∈ (scan m).seenHooks := hook_in_seen m j fdh h hj hn hh
  constructor
  · exact List.mem_filter.mpr ⟨hmem, List.elem_eq_true_of_mem hseen⟩
  · intro hres
    have hpred := List.find?_some he
    have hmemE := List.mem_of_find?_eq_some he
    simp only [Bool.and_eq_true, beq_iff_eq] at hpred
    obtain ⟨h1, h2⟩ := hpred
    obtain ⟨fn, ht, hsig⟩ := scan_sigs_sound m e hmemE
    have hfn : fn = fd.fn := by
      unfold sigTarget at ht
      rw [h1, hi] at ht
      simp [h2] at ht
      exact ht.symm
    subst hfn
    obtain ⟨body, hb⟩ : ∃ body, fd.fn.body = some body := by
      cases hfb : fd.fn.body with
      | none => simp [getHookCallsSignature, hfb] at hsig
      | some b => exact ⟨b, rfl⟩
    refine ⟨body, hb, ?_⟩
    have hfr : resolvedForceReset (hasResetComment fd.comments) (scan m).seenHooks
        e.customHooks = hasResetComment fd.comments := by
      unfold resolvedForceReset
      rw [hres, bne_self_eq_false, Bool.or_false]
    simp only [rewriteStmt, he, _sign, hb, hfr, hres]

/-- Witness for `c2_amended` at the end-to-end module: `Counter` (index 0)
calls `useMyHook`, declared at index 1. -/
theorem c2_amended_witness :
    ((0 < 1) ∧
      counterModule[0]? = some (Stmt.funcDecl ⟨some ("Counter"), ⟨some counterBody⟩, []⟩) ∧
      counterModule[1]? =
        some (Stmt.funcDecl ⟨some ("useMyHook"), ⟨some [BodyStmt.other]⟩, []⟩) ∧
      isHookName ("useMyHook") = true ∧
      findSig (scan counterModule).sigs 0 0 =
        some ⟨0, 0, 0, "useState{[n,setN](0)}\nuseMyHook{}", [("useMyHook")]⟩ ∧
      ("useMyHook" : String) ∈ [("useMyHook" : String)]) ∧
    (("useMyHook" : String) ∈ resolveHooks (scan counterModule).seenHooks [("useMyHook")] ∧
      (resolveHooks (scan counterModule).seenHooks [("useMyHook")] = [("useMyHook")] →
        ∃ body, (⟨some counterBody⟩ : FnLike).body = some body ∧
          rewriteStmt (scan counterModule).seenHooks (scan counterModule).sigs 0
            (Stmt.funcDecl ⟨some ("Counter"), ⟨some counterBody⟩, []⟩) =
            [OutStmt.funcDeclRw (some ("Counter"))
              (OutBodyStmt.sigEntry 0 :: body.map OutBodyStmt.orig),
             OutStmt.sigRecord 0 (sigRecordArgs ((some ("Counter")).getD "")
               ("useState{[n,setN](0)}\nuseMyHook{}")
               (hasResetComment []) [("useMyHook")])])) :=
  ⟨⟨by decide, by decide, by decide, by decide, by decide, by decide⟩,
   c2_amended counterModule 0 1 ⟨some ("Counter"), ⟨some counterBody⟩, []⟩
     ⟨some ("useMyHook"), ⟨some [BodyStmt.other]⟩, []⟩
     ⟨0, 0, 0, "useState{[n,setN](0)}\nuseMyHook{}", [("useMyHook")]⟩
     ("useMyHook") (by decide) (by decide) (by decide) (by decide) (by decide)
     (by decide) (by decide)⟩

/-- The rewrite of an original statement never produces a registration call. -/
theorem no_register_rewriteStmt (seen : List String) (sigs : List SigEntry) (i : Nat)
    (s : Stmt) (n : String) : OutStmt.register n ∉ rewriteStmt seen sigs i s := by
  intro hmem
  cases s with
  | funcDecl fd =>
      cases he : findSig sigs i 0 with
      | none => simp [rewriteStmt, he] at hmem
      | some e =>
          cases hb : fd.fn.body with
          | none => simp [rewriteStmt, he, _sign, hb] at hmem
          | some b => simp [rewriteStmt, he, _sign, hb] at hmem
  | varStmt vs =>
      simp only [rewriteStmt] at hmem
      rcases List.mem_cons.mp hmem with h' | h'
      · exact OutStmt.noConfusion h'
      · rcases List.mem_flatten.mp h' with ⟨l, hl, ho⟩
        rcases List.mem_map.mp hl with ⟨r, hr, rfl⟩
        rcases List.mem_map.mp hr with ⟨p, hp, rfl⟩
        rcases mem_rewriteVarDecl_snd seen sigs i _ p _ ho with ⟨nm, e, heq⟩
        exact OutStmt.noConfusion heq
  | importDecl im => simp [rewriteStmt] at hmem
  | other t => simp [rewriteStmt] at hmem

/-- C8: the transform's output is everything else followed by exactly one
registration call per top-level component-named function declaration or
identifier-bound function/arrow declarator, in source order, each carrying
that identifier's exact name; no other statement contributes a registration
call. -/
theorem c8_registrations (m : List Stmt) :
    ∃ pre, transform m = pre ++ ((m.map stmtComponents).flatten).map OutStmt.register ∧
      ∀ n, OutStmt.register n ∉ pre := by
  refine ⟨(if (scan m).sigs.length > 0 then
      [OutStmt.sigDecls ((scan m).sigs.map SigEntry.id)] else [])
      ++ (m.enum.map (fun p => rewriteStmt (scan m).seenHooks (scan m).sigs p.1 p.2)).flatten,
    ?_, ?_⟩
  · show transform m =
      ((if (scan m).sigs.length > 0 then
        [OutStmt.sigDecls ((scan m).sigs.map SigEntry.id)] else [])
        ++ (m.enum.map (fun p =>
              rewriteStmt (scan m).seenHooks (scan m).sigs p.1 p.2)).flatten)
      ++ ((m.map stmtComponents).flatten).map OutStmt.register
    rw [← scan_components]
    simp only [transform, List.append_assoc]
  · intro n hmem
    rcases List.mem_append.mp hmem with h | h
    · split at h <;> simp at h
    · rcases List.mem_flatten.mp h with ⟨l, hl, ho⟩
      rcases List.mem_map.mp hl with ⟨p, hp, rfl⟩
      exact no_register_rewriteStmt _ _ _ _ n ho

/-- A declarator with no map entry passes through the rewrite untouched. -/
theorem rewriteVarDecl_unsigned (seen : List String) (sigs : List SigEntry) (i : Nat)
    (frc : Bool) (p : Nat × TopVarDecl) (h : findSig sigs i p.1 = none) :
    rewriteVarDecl seen sigs i frc p = (OutVarDecl.orig p.2, []) := by
  obtain ⟨di, d⟩ := p
  obtain ⟨dn, dinit⟩ := d
  cases dn with
  | pattern t => rfl
  | ident nm =>
      cases dinit with
      | none => rfl
      | some ti =>
          cases ti with
          | otherInit => rfl
          | fnExpr fn => simp [rewriteVarDecl, h]
          | arrow fn => simp [rewriteVarDecl, h]

/-- Erasure undoes the all-orig rebuild of a declarator list. -/
theorem eraseDecls_map_orig : ∀ (ds : List TopVarDecl),
    eraseDecls (ds.map OutVarDecl.orig) = some ds := by
  intro ds
  induction ds with
  | nil => rfl
  | cons d ds ih => simp [eraseDecls, eraseVarDecl, ih]

/-- C9 (frame): the output is exactly the optionally-prepended combined
signature declaration (present exactly when at least one signature was
synthesized), then the per-statement rewrite chunks in original order, then
the appended registration calls; a statement none of whose declarators (nor
itself) is signed yields a single chunk statement that erases back to the
original statement; and every chunk is one defining statement followed only
by signature-recording statements (so each recording statement sits
immediately after the statement defining its function). -/
theorem c9_frame (m : List Stmt) :
    (transform m =
      (if (scan m).sigs.length > 0 then
        [OutStmt.sigDecls ((scan m).sigs.map SigEntry.id)] else [])
      ++ (m.enum.map (fun p =>
            rewriteStmt (scan m).seenHooks (scan m).sigs p.1 p.2)).flatten
      ++ (scan m).components.map OutStmt.register) ∧
    (∀ i s, m[i]? = some s → (∀ di, findSig (scan m).sigs i di = none) →
      ∃ u, rewriteStmt (scan m).seenHooks (scan m).sigs i s = [u] ∧
        eraseOut u = some s) ∧
    (∀ i s, ∃ hd recs,
      rewriteStmt (scan m).seenHooks (scan m).sigs i s = hd :: recs ∧
      isSigRecord hd = false ∧ ∀ o ∈ recs, isSigRecord o = true) := by
  refine ⟨rfl, ?_, ?_⟩
  · intro i s _ hnone
    cases s with
    | funcDecl fd =>
        refine ⟨OutStmt.orig (Stmt.funcDecl fd), ?_, rfl⟩
        simp [rewriteStmt, hnone 0]
    | varStmt vs =>
        have hmap : vs.decls.enum.map
            (rewriteVarDecl (scan m).seenHooks (scan m).sigs i (hasResetComment vs.comments)) =
            vs.decls.enum.map (fun p => (OutVarDecl.orig p.2, ([] : List OutStmt))) :=
          List.map_congr_left (fun p _ =>
            rewriteVarDecl_unsigned _ _ i _ p (hnone p.1))
        refine ⟨OutStmt.varStmtRw (vs.decls.map OutVarDecl.orig) vs.comments, ?_, ?_⟩
        · simp only [rewriteStmt, hmap, List.map_map]
          rw [show (Prod.fst ∘ fun p : Nat × TopVarDecl =>
                (OutVarDecl.orig p.2, ([] : List OutStmt)))
              = (fun p : Nat × TopVarDecl => OutVarDecl.orig p.2) from rfl,
            enum_map_snd_comp]
          simp [Function.comp]
        · simp [eraseOut, eraseDecls_map_orig]
    | importDecl im => exact ⟨OutStmt.orig (Stmt.importDecl im), rfl, rfl⟩
    | other t => exact ⟨OutStmt.orig (Stmt.other t), rfl, rfl⟩
  · intro i s
    cases s with
    | funcDecl fd =>
        cases he : findSig (scan m).sigs i 0 with
        | none =>
            refine ⟨OutStmt.orig (Stmt.funcDecl fd), [], ?_, rfl, by simp⟩
            simp [rewriteStmt, he]
        | some e =>
            cases hb : fd.fn.body with
            | none =>
                refine ⟨OutStmt.orig (Stmt.funcDecl fd), [], ?_, rfl, by simp⟩
                simp [rewriteStmt, he, _sign, hb]
            | some b =>
                refine ⟨OutStmt.funcDeclRw fd.name
                    (OutBodyStmt.sigEntry e.id :: b.map OutBodyStmt.orig),
                  [OutStmt.sigRecord e.id (sigRecordArgs (fd.name.getD "") e.key
                    (resolvedForceReset (hasResetComment fd.comments) (scan m).seenHooks
                      e.customHooks)
                    (resolveHooks (scan m).seenHooks e.customHooks))], ?_, rfl, ?_⟩
                · simp [rewriteStmt, he, _sign, hb]
                · intro o ho
                  rw [List.mem_singleton.mp ho]
                  rfl
    | varStmt vs =>
        refine ⟨_, _, rfl, rfl, ?_⟩
        intro o ho
        rcases List.mem_flatten.mp ho with ⟨l, hl, ho'⟩
        rcases List.mem_map.mp hl with ⟨r, hr, rfl⟩
        rcases List.mem_map.mp hr with ⟨p, hp, rfl⟩
        rcases mem_rewriteVarDecl_snd (scan m).seenHooks (scan m).sigs i _ p _ ho'
          with ⟨nm, e, heq⟩
        rw [heq]
        rfl
    | importDecl im => exact ⟨OutStmt.orig (Stmt.importDecl im), [], rfl, rfl, by simp⟩
    | other t => exact ⟨OutStmt.orig (Stmt.other t), [], rfl, rfl, by simp⟩

/-- Witness for `c8_registrations` at the end-to-end module. -/
theorem c8_witness :
    ∃ pre, transform counterModule =
      pre ++ ((counterModule.map stmtComponents).flatten).map OutStmt.register ∧
      ∀ n, OutStmt.register n ∉ pre :=
  c8_registrations counterModule

/-- Witness for `c9_frame` at the end-to-end module. -/
theorem c9_witness :
    (transform counterModule =
      (if (scan counterModule).sigs.length > 0 then
        [OutStmt.sigDecls ((scan counterModule).sigs.map SigEntry.id)] else [])
      ++ (counterModule.enum.map (fun p =>
            rewriteStmt (scan counterModule).seenHooks (scan counterModule).sigs p.1 p.2)).flatten
      ++ (scan counterModule).components.map OutStmt.register) ∧
    (∀ i s, counterModule[i]? = some s →
      (∀ di, findSig (scan counterModule).sigs i di = none) →
      ∃ u, rewriteStmt (scan counterModule).seenHooks (scan counterModule).sigs i s = [u] ∧
        eraseOut u = some s) ∧
    (∀ i s, ∃ hd recs,
      rewriteStmt (scan counterModule).seenHooks (scan counterModule).sigs i s = hd :: recs ∧
      isSigRecord hd = false ∧ ∀ o ∈ recs, isSigRecord o = true) :=
  c9_frame counterModule
